import Mathlib

/-!
Verification of the multi-agent phishing email detection pipeline:
shallow embedding of `agents/base_agent.py`, `agents/unified_analyzer.py`,
`agents/text_agent_v2.py` and `agents/url_agent_v2.py`, together with
theorems settling the specified behavioural claims.

Strings from the Python code are modelled as `String` / `List Char`,
floats as exact rationals `ℚ`, dictionaries holding the analyzer results
as records whose optional fields model key presence (`dict.get(k, d)`
becomes `Option.getD`), and raised exceptions as `Except` values.
-/

/-- Structured JSON-shaped values, the model of the objects handled by
Python's `json` module in `base_agent.py`.  Numbers are modelled as
integers (spelled in decimal by the serializer). -/
inductive Json where
  | null : Json
  | bool (b : Bool) : Json
  | num (n : Int) : Json
  | str (s : String) : Json
  | arr (elems : List Json) : Json
  | obj (fields : List (String × Json)) : Json

/-- Numeric value of a decimal digit character. -/
def digitVal (c : Char) : Nat := c.toNat - 48

/-- The decimal digit character for `d < 10`. -/
def digitChar10 (d : Nat) : Char := Char.ofNat (48 + d)

/-- Big-endian decimal value of a list of digit characters. -/
def natFromDigits (l : List Char) : Nat :=
  l.foldl (fun a c => 10 * a + digitVal c) 0

/-- Big-endian decimal digit characters of a natural number (`"0"` for zero),
as produced by Python's integer serialization. -/
def natChars (n : Nat) : List Char :=
  if n = 0 then ['0'] else ((Nat.digits 10 n).reverse).map digitChar10

/-- Decimal spelling of an integer. -/
def intChars : Int → List Char
  | .ofNat m => natChars m
  | .negSucc m => '-' :: natChars (m + 1)

/-- JSON string-body escaping: quote and backslash are escaped with a
backslash, all other characters pass through. -/
def escapeChars : List Char → List Char
  | [] => []
  | c :: rest =>
    if c = '"' ∨ c = '\\' then '\\' :: c :: escapeChars rest
    else c :: escapeChars rest

mutual

/-- Compact serialization of a JSON value (the model of `json.dumps`
output shapes consumed by `_extract_json`). -/
def dumpChars : Json → List Char
  | .null => ['n', 'u', 'l', 'l']
  | .bool b => if b then ['t', 'r', 'u', 'e'] else ['f', 'a', 'l', 's', 'e']
  | .num n => intChars n
  | .str s => '"' :: (escapeChars s.data ++ ['"'])
  | .arr [] => ['[', ']']
  | .arr (x :: xs) => '[' :: (dumpChars x ++ dumpArrRest xs)
  | .obj [] => ['{', '}']
  | .obj (kv :: kvs) => '{' :: (dumpMember kv ++ dumpObjRest kvs)

/-- Serialization of the remaining elements of an array, including the
closing bracket. -/
def dumpArrRest : List Json → List Char
  | [] => [']']
  | x :: xs => ',' :: (dumpChars x ++ dumpArrRest xs)

/-- Serialization of one `key: value` member of an object. -/
def dumpMember : String × Json → List Char
  | (k, v) => '"' :: (escapeChars k.data ++ ['"', ':'] ++ dumpChars v)

/-- Serialization of the remaining members of an object, including the
closing brace. -/
def dumpObjRest : List (String × Json) → List Char
  | [] => ['}']
  | kv :: kvs => ',' :: (dumpMember kv ++ dumpObjRest kvs)

end

/-- Parse the body of a JSON string literal (opening quote already
consumed): returns the decoded characters and the input after the
closing quote. -/
def parseStrChars : List Char → Option (List Char × List Char)
  | [] => none
  | c :: rest =>
    if c = '"' then some ([], rest)
    else if c = '\\' then
      match rest with
      | [] => none
      | c2 :: rest2 =>
        if c2 = '"' ∨ c2 = '\\' then
          (parseStrChars rest2).map (fun p => (c2 :: p.1, p.2))
        else none
    else (parseStrChars rest).map (fun p => (c :: p.1, p.2))

mutual

/-- Fuel-indexed recursive-descent parser for one JSON value, the model
of `json.loads` (compact form: no inter-token whitespace). -/
def parseVal : Nat → List Char → Option (Json × List Char)
  | 0, _ => none
  | fuel + 1, l =>
    match l with
    | [] => none
    | c :: rest =>
      if c = 'n' then
        match rest with
        | 'u' :: 'l' :: 'l' :: r => some (.null, r)
        | _ => none
      else if c = 't' then
        match rest with
        | 'r' :: 'u' :: 'e' :: r => some (.bool true, r)
        | _ => none
      else if c = 'f' then
        match rest with
        | 'a' :: 'l' :: 's' :: 'e' :: r => some (.bool false, r)
        | _ => none
      else if c = '"' then
        (parseStrChars rest).map (fun p => (.str ⟨p.1⟩, p.2))
      else if c = '[' then
        match rest with
        | [] => none
        | c2 :: rest2 =>
          if c2 = ']' then some (.arr [], rest2)
          else do
            let (v, r) ← parseVal fuel rest
            let (vs, r2) ← parseArrRest fuel r
            pure (.arr (v :: vs), r2)
      else if c = '{' then
        match rest with
        | [] => none
        | c2 :: rest2 =>
          if c2 = '}' then some (.obj [], rest2)
          else do
            let (kv, r) ← parseMember fuel rest
            let (kvs, r2) ← parseObjRest fuel r
            pure (.obj (kv :: kvs), r2)
      else if c = '-' then
        match rest with
        | [] => none
        | c2 :: _ =>
          if c2.isDigit then
            some (.num (-(natFromDigits (rest.takeWhile Char.isDigit) : Int)),
                  rest.dropWhile Char.isDigit)
          else none
      else if c.isDigit then
        some (.num (natFromDigits ((c :: rest).takeWhile Char.isDigit)),
              (c :: rest).dropWhile Char.isDigit)
      else none

/-- Parse the elements of an array after the first element: either the
closing bracket or a comma followed by a value. -/
def parseArrRest : Nat → List Char → Option (List Json × List Char)
  | 0, _ => none
  | fuel + 1, l =>
    match l with
    | [] => none
    | c :: rest =>
      if c = ']' then some ([], rest)
      else if c = ',' then do
        let (v, r) ← parseVal fuel rest
        let (vs, r2) ← parseArrRest fuel r
        pure (v :: vs, r2)
      else none

/-- Parse one `"key": value` member of an object. -/
def parseMember : Nat → List Char → Option ((String × Json) × List Char)
  | 0, _ => none
  | fuel + 1, l =>
    match l with
    | [] => none
    | c :: rest =>
      if c = '"' then
        match parseStrChars rest with
        | none => none
        | some (k, r) =>
          match r with
          | ':' :: r2 => (parseVal fuel r2).map (fun p => ((⟨k⟩, p.1), p.2))
          | _ => none
      else none

/-- Parse the members of an object after the first member: either the
closing brace or a comma followed by another member. -/
def parseObjRest : Nat → List Char → Option (List (String × Json) × List Char)
  | 0, _ => none
  | fuel + 1, l =>
    match l with
    | [] => none
    | c :: rest =>
      if c = '}' then some ([], rest)
      else if c = ',' then do
        let (kv, r) ← parseMember fuel rest
        let (kvs, r2) ← parseObjRest fuel r
        pure (kv :: kvs, r2)
      else none

end

/-- Parse a complete JSON document: one value consuming the whole input
(`json.loads` rejects trailing data). -/
def jsonParse (l : List Char) : Option Json :=
  match parseVal (2 * l.length + 1) l with
  | some (j, []) => some j
  | _ => none

/-- Index of the first occurrence of a character, the model of Python's
`str.find` (with `None` for `-1`). -/
def pyFind (c : Char) : List Char → Option Nat
  | [] => none
  | x :: xs => if x = c then some 0 else (pyFind c xs).map (· + 1)

/-- Index of the last occurrence of a character, the model of Python's
`str.rfind` (with `None` for `-1`). -/
def pyRFind (c : Char) (l : List Char) : Option Nat :=
  (pyFind c l.reverse).map (fun i => l.length - 1 - i)

/-- The two Malformed Output failure modes of the Result Extractor:
the `ValueError No JSON object found` raise, and the `json.loads`
parse failure. -/
inductive ExtractError where
  | noJsonFound : ExtractError
  | parseError : ExtractError
deriving DecidableEq, Repr

/-- `BaseAgent._extract_json`: locate the first `\x7b` and the last `\x7d`,
raise `ValueError` when either is missing or the last closing brace is at
or before the first opening brace, otherwise `json.loads` the inclusive
slice between them. -/
def extractJson (raw : List Char) : Except ExtractError Json :=
  match pyFind '{' raw, pyRFind '}' raw with
  | some s, some e =>
    if e ≤ s then .error .noJsonFound
    else
      match jsonParse ((raw.drop s).take (e + 1 - s)) with
      | some j => .ok j
      | none => .error .parseError
  | _, _ => .error .noJsonFound

/-- Failures of one analyzer: transport failure in `call_llm`
(Backend Unavailable) or a Malformed Output failure from
`_extract_json` / `json.loads`. -/
inductive AgentError where
  | backendUnavailable : AgentError
  | malformed (e : ExtractError) : AgentError
deriving DecidableEq, Repr

/-- `BaseAgent.analyze` / `call_llm`: the transport outcome `llm` is the
raw backend text (or a transport error); the raw text goes through
`_extract_json` and the parsed object is returned as-is, with no schema
validation of any kind. -/
def agentAnalyze (llm : Except Unit (List Char)) : Except AgentError Json :=
  match llm with
  | .error _ => .error .backendUnavailable
  | .ok raw => (extractJson raw).mapError .malformed

/-- `URLAgent.prepare_input`: `None` and the empty list collapse to the
empty list; an empty list is rendered as the `(no URLs provided)` marker,
otherwise the URLs are joined with newlines. -/
def prepare_input (urls : Option (List String)) : String :=
  let urls := match urls with | none => [] | some l => l
  let urls_text :=
    if urls.isEmpty then "(no URLs provided)" else String.intercalate "\n" urls
  "URLs to analyze:\n" ++ urls_text

/-- `URLAgent.analyze`: format the URL list with `prepare_input`, send it
to the backend (`llm` maps the user message to the transport outcome),
and extract the JSON object from the raw response. -/
def urlAgentAnalyze (llm : String → Except Unit (List Char))
    (urls : Option (List String)) : Except AgentError Json :=
  agentAnalyze (llm (prepare_input urls))

/-- One entry of an analyzer result's `url_details` list, restricted to
the only key `_merge_results` reads: `d.get("indicators", [])`. -/
structure UrlDetail where
  indicators : Option (List String)
deriving DecidableEq, Repr

/-- An analyzer result dictionary, restricted to the keys
`_merge_results` and `_build_rationale` read.  `none` models an absent
key, so `r.get(k, d)` becomes `Option.getD`. -/
structure AgentResult where
  verdict : Option String
  confidence : Option ℚ
  phishing_indicators : Option (List String)
  legitimacy_indicators : Option (List String)
  url_details : Option (List UrlDetail)
  overall_rationale : Option String
  safety_notes : Option String
deriving DecidableEq, Repr

/-- The `agents_used` sub-dictionary of the unified result. -/
structure AgentsUsed where
  text : Bool
  url : Bool
deriving DecidableEq, Repr

/-- The unified result dictionary built by `_merge_results`. -/
structure UnifiedResult where
  task : String
  verdict : String
  confidence : ℚ
  phishing_indicators : List String
  legitimacy_indicators : List String
  agents_used : AgentsUsed
  text_agent_result : AgentResult
  url_agent_result : Option AgentResult
  overall_rationale : String
  safety_notes : String
deriving DecidableEq, Repr

/-- The `verdict_scores` lookup of `_merge_results`:
`{"phishing": 1.0, "unsure": 0.5, "legitimate": 0.0}.get(v, 0.5)`. -/
def verdict_scores (v : String) : ℚ :=
  if v = "phishing" then 1
  else if v = "unsure" then 1 / 2
  else if v = "legitimate" then 0
  else 1 / 2

/-- `verdict_scores.get(result.get("verdict", "unsure"), 0.5)`. -/
def scoreOf (r : AgentResult) : ℚ := verdict_scores (r.verdict.getD "unsure")

/-- `result.get("confidence", 0.5)`. -/
def confOf (r : AgentResult) : ℚ := r.confidence.getD (1 / 2)

/-- The combined score of `_merge_results`: with a URL result,
`text_score * 0.6 * text_confidence + url_score * 0.4 * url_confidence`;
without one, `text_score * text_confidence`. -/
def combined_score (text_result : AgentResult) : Option AgentResult → ℚ
  | some url_result =>
      scoreOf text_result * (6 / 10) * confOf text_result
        + scoreOf url_result * (4 / 10) * confOf url_result
  | none => scoreOf text_result * confOf text_result

/-- The combined confidence of `_merge_results`: with a URL result,
`text_confidence * 0.6 + url_confidence * 0.4`; without one, the text
confidence. -/
def combined_confidence (text_result : AgentResult) : Option AgentResult → ℚ
  | some url_result => confOf text_result * (6 / 10) + confOf url_result * (4 / 10)
  | none => confOf text_result

/-- The final-verdict thresholding of `_merge_results`:
`>= 0.7` is phishing, `<= 0.3` legitimate, otherwise unsure. -/
def final_verdict (s : ℚ) : String :=
  if s ≥ 7 / 10 then "phishing"
  else if s ≤ 3 / 10 then "legitimate"
  else "unsure"

/-- Round-half-to-even of a rational to an integer, the rounding mode of
Python's `round`. -/
def roundHalfEven (q : ℚ) : ℤ :=
  let f := ⌊q⌋
  let r := q - (f : ℚ)
  if r < 1 / 2 then f
  else if 1 / 2 < (r : ℚ) then f + 1
  else if f % 2 = 0 then f else f + 1

/-- `round(x, 2)`: round to two decimal places. -/
def round2 (q : ℚ) : ℚ := (roundHalfEven (q * 100) : ℚ) / 100

/-- The URL indicators flattened into the phishing-indicator pool:
`[d.get("indicators", []) for d in url_result.get("url_details", [])]`,
then each list appended by the `extend` loop. -/
def urlIndicators (url_result : AgentResult) : List String :=
  ((url_result.url_details.getD []).map (fun d => d.indicators.getD [])).flatten

/-- `UnifiedEmailAnalyzer._build_rationale` (the `verdict` argument is
taken but unused, exactly as in the source). -/
def build_rationale (verdict : String) (text_result : AgentResult)
    (url_result : Option AgentResult) : String :=
  let text_rationale := text_result.overall_rationale.getD ""
  match url_result with
  | some ur =>
      "Text analysis: " ++ text_rationale ++ "\n\nURL analysis: "
        ++ (ur.overall_rationale.getD "")
  | none => "Based on text analysis: " ++ text_rationale

/-- `UnifiedEmailAnalyzer._merge_results`.

`pySet` models the enumeration `list(set(xs))`: CPython enumerates the
set in an order determined by its randomized string hashing, so the
enumeration is passed explicitly (see `ValidSetEnum`).

Because `all_phishing_indicators` aliases the text result's own
`phishing_indicators` list when that key is present, the `extend` calls
performed when a URL result is present mutate the text result in place;
the second component of the returned pair is the text result as it
stands after the merge, and the `text_agent_result` field embeds that
same mutated record. -/
def mergeResults (pySet : List String → List String) (text_result : AgentResult)
    (url_result : Option AgentResult) : UnifiedResult × AgentResult :=
  let s := combined_score text_result url_result
  let conf := combined_confidence text_result url_result
  let urls_analyzed := url_result.isSome
  let all_phishing_indicators : List String :=
    text_result.phishing_indicators.getD []
      ++ (match url_result with | some ur => urlIndicators ur | none => [])
  let text_after : AgentResult :=
    match text_result.phishing_indicators, url_result with
    | some l, some ur =>
        { text_result with phishing_indicators := some (l ++ urlIndicators ur) }
    | _, _ => text_result
  ({ task := "email_phishing_detection"
   , verdict := final_verdict s
   , confidence := round2 conf
   , phishing_indicators := pySet all_phishing_indicators
   , legitimacy_indicators := text_result.legitimacy_indicators.getD []
   , agents_used := { text := true, url := urls_analyzed }
   , text_agent_result := text_after
   , url_agent_result := url_result
   , overall_rationale := build_rationale (final_verdict s) text_result url_result
   , safety_notes := text_result.safety_notes.getD "" }, text_after)

/-- A valid enumeration of `list(set(xs))`: duplicate-free and holding
exactly the members of `xs`.  Any CPython hash seed yields such an
enumeration. -/
def ValidSetEnum (f : List String → List String) : Prop :=
  ∀ l : List String, (f l).Nodup ∧ ∀ x, x ∈ f l ↔ x ∈ l

/-- `UnifiedEmailAnalyzer.analyze_email`: default the URL list to empty,
run the text agent, run the URL agent only when the list is non-empty
(`if urls else None`), and merge.  The two agent calls are modelled by
the outcome functions `textAnalyze` and `urlAnalyze`; a raised exception
(`Except.error`) propagates, as there is no handler in the source. -/
def analyzeEmail (pySet : List String → List String)
    (textAnalyze : String → String → Except AgentError AgentResult)
    (urlAnalyze : List String → Except AgentError AgentResult)
    (subject body : String) (urls : Option (List String)) :
    Except AgentError UnifiedResult :=
  let urls := urls.getD []
  match textAnalyze subject body with
  | .error e => .error e
  | .ok text_result =>
    match (if urls.isEmpty then .ok none else (urlAnalyze urls).map some :
        Except AgentError (Option AgentResult)) with
    | .error e => .error e
    | .ok url_result => .ok (mergeResults pySet text_result url_result).1

mutual

/-- Fuel sufficient for `parseVal` to parse the serialization of a JSON
value (see `parse_dump_round`). -/
def jfuel : Json → Nat
  | .arr xs => 1 + jfuelA xs
  | .obj kvs => 1 + jfuelO kvs
  | _ => 1

def jfuelA : List Json → Nat
  | [] => 1
  | x :: xs => 1 + jfuel x + jfuelA xs

def jfuelO : List (String × Json) → Nat
  | [] => 1
  | kv :: kvs => 2 + jfuel kv.2 + jfuelO kvs

end

/-- A tail that cannot extend a decimal numeral: empty or starting with a
non-digit. -/
def goodRest : List Char → Prop
  | [] => True
  | c :: _ => c.isDigit = false

/-- The possible first characters of a serialized JSON value. -/
def jsonStart (c : Char) : Prop :=
  c = 'n' ∨ c = 't' ∨ c = 'f' ∨ c = '"' ∨ c = '[' ∨ c = '{' ∨ c = '-'
    ∨ c.isDigit = true

/-! ### Concrete analyzer results used as test inputs -/

/-- A text result carrying a `verdict` outside the three-value enum. -/
def bananaResult : AgentResult :=
  { verdict := some "banana", confidence := some (9 / 10),
    phishing_indicators := none, legitimacy_indicators := none,
    url_details := none, overall_rationale := none, safety_notes := none }

/-- A text result with one phishing indicator `"a"`. -/
def textResA : AgentResult :=
  { verdict := some "legitimate", confidence := some (8 / 10),
    phishing_indicators := some ["a"], legitimacy_indicators := some [],
    url_details := none, overall_rationale := some "", safety_notes := some "" }

/-- A URL result whose single detail entry carries indicator `"b"`. -/
def urlResB : AgentResult :=
  { verdict := some "phishing", confidence := some (9 / 10),
    phishing_indicators := none, legitimacy_indicators := none,
    url_details := some [{ indicators := some ["b"] }],
    overall_rationale := some "", safety_notes := none }

/-- A well-formed text result. -/
def okTextRes : AgentResult :=
  { verdict := some "phishing", confidence := some (9 / 10),
    phishing_indicators := some [], legitimacy_indicators := some [],
    url_details := none, overall_rationale := some "r", safety_notes := some "" }

/-- A text result with the two phishing indicators `"a"` and `"b"`. -/
def textResAB : AgentResult :=
  { verdict := some "unsure", confidence := some (1 / 2),
    phishing_indicators := some ["a", "b"], legitimacy_indicators := some [],
    url_details := none, overall_rationale := some "", safety_notes := some "" }

/-! ### Helper lemmas about the merge -/

theorem merge_fst_verdict (pySet : List String → List String) (tr : AgentResult)
    (ur : Option AgentResult) :
    (mergeResults pySet tr ur).1.verdict = final_verdict (combined_score tr ur) := rfl

theorem merge_fst_confidence (pySet : List String → List String) (tr : AgentResult)
    (ur : Option AgentResult) :
    (mergeResults pySet tr ur).1.confidence = round2 (combined_confidence tr ur) := rfl

theorem final_verdict_phishing (s : ℚ) : final_verdict s = "phishing" ↔ 7 / 10 ≤ s := by
  unfold final_verdict
  split_ifs with h1 h2
  · exact ⟨fun _ => h1, fun _ => rfl⟩
  · exact ⟨fun h => absurd h (by decide), fun h => absurd h h1⟩
  · exact ⟨fun h => absurd h (by decide), fun h => absurd h h1⟩

theorem final_verdict_legitimate (s : ℚ) :
    final_verdict s = "legitimate" ↔ s ≤ 3 / 10 := by
  unfold final_verdict
  split_ifs with h1 h2
  · exact ⟨fun h => absurd h (by decide),
      fun h => absurd (le_trans h1 h) (by norm_num)⟩
  · exact ⟨fun _ => h2, fun _ => rfl⟩
  · exact ⟨fun h => absurd h (by decide), fun h => absurd h h2⟩

theorem final_verdict_unsure (s : ℚ) :
    final_verdict s = "unsure" ↔ 3 / 10 < s ∧ s < 7 / 10 := by
  unfold final_verdict
  split_ifs with h1 h2
  · exact ⟨fun h => absurd h (by decide), fun h => absurd h1 (not_le.2 h.2)⟩
  · exact ⟨fun h => absurd h (by decide), fun h => absurd h2 (not_le.2 h.1)⟩
  · exact ⟨fun _ => ⟨not_le.1 h2, not_le.1 h1⟩, fun _ => rfl⟩

theorem validSetEnum_dedup : ValidSetEnum (fun l => List.dedup l) :=
  fun _ => ⟨List.nodup_dedup _, fun _ => List.mem_dedup⟩

theorem validSetEnum_dedup_reverse : ValidSetEnum (fun l => (List.dedup l).reverse) :=
  fun _ => ⟨List.nodup_reverse.2 (List.nodup_dedup _),
    fun _ => by rw [List.mem_reverse]; exact List.mem_dedup⟩

/-! ### Claim theorems -/

/-- C3: the final verdict is `phishing` exactly when the unrounded combined
score is at least 0.7, `legitimate` exactly when it is at most 0.3, and
`unsure` exactly in between (both boundaries inclusive on their sides);
the reported confidence is the combined confidence rounded to two decimal
places, while the thresholding uses the unrounded score. -/
theorem claim3_thresholds (pySet : List String → List String) (tr : AgentResult)
    (ur : Option AgentResult) :
    ((mergeResults pySet tr ur).1.verdict = "phishing" ↔
        7 / 10 ≤ combined_score tr ur)
  ∧ ((mergeResults pySet tr ur).1.verdict = "legitimate" ↔
        combined_score tr ur ≤ 3 / 10)
  ∧ ((mergeResults pySet tr ur).1.verdict = "unsure" ↔
        3 / 10 < combined_score tr ur ∧ combined_score tr ur < 7 / 10)
  ∧ (mergeResults pySet tr ur).1.confidence = round2 (combined_confidence tr ur) := by
  refine ⟨?_, ?_, ?_, merge_fst_confidence pySet tr ur⟩
  · rw [merge_fst_verdict]; exact final_verdict_phishing _
  · rw [merge_fst_verdict]; exact final_verdict_legitimate _
  · rw [merge_fst_verdict]; exact final_verdict_unsure _

/-- C4: when a URL result is present the merge marks `agents_used.url`,
thresholds `0.6 × text_score × text_confidence + 0.4 × url_score ×
url_confidence`, reports `round2 (0.6 × text_confidence + 0.4 ×
url_confidence)`, and the verdict-to-score map sends phishing to 1.0,
unsure to 0.5 and legitimate to 0.0. -/
theorem claim4_weighted_merge (pySet : List String → List String)
    (tr ur : AgentResult) :
    (mergeResults pySet tr (some ur)).1.agents_used.url = true
  ∧ (mergeResults pySet tr (some ur)).1.verdict
      = final_verdict (6 / 10 * scoreOf tr * confOf tr
          + 4 / 10 * scoreOf ur * confOf ur)
  ∧ (mergeResults pySet tr (some ur)).1.confidence
      = round2 (6 / 10 * confOf tr + 4 / 10 * confOf ur)
  ∧ verdict_scores "phishing" = 1 ∧ verdict_scores "unsure" = 1 / 2
  ∧ verdict_scores "legitimate" = 0 := by
  refine ⟨rfl, ?_, ?_, by simp [verdict_scores], by simp [verdict_scores],
    by simp [verdict_scores]⟩
  · rw [merge_fst_verdict]
    congr 1
    simp only [combined_score]
    ring
  · rw [merge_fst_confidence]
    congr 1
    simp only [combined_confidence]
    ring

/-- C5: with no URL result the combined confidence is exactly the text
confidence and the combined score exactly `text_score × text_confidence`
(pre-rounding), `agents_used.url` is false, and the output verdict and
confidence are derived from exactly those quantities. -/
theorem claim5_text_only_merge (pySet : List String → List String)
    (tr : AgentResult) :
    combined_confidence tr none = confOf tr
  ∧ combined_score tr none = scoreOf tr * confOf tr
  ∧ (mergeResults pySet tr none).1.agents_used.url = false
  ∧ (mergeResults pySet tr none).1.verdict = final_verdict (scoreOf tr * confOf tr)
  ∧ (mergeResults pySet tr none).1.confidence = round2 (confOf tr) :=
  ⟨rfl, rfl, rfl, rfl, rfl⟩

/-- C1 counterexample: a result whose `verdict` is the out-of-enum string
`"banana"` does not make the analysis fail — `_merge_results` silently
scores it 0.5 (here `combined_score = 0.5 × 0.9 = 0.45`) and produces the
final verdict `"unsure"`, refuting the claimed validation failure. -/
theorem claim1_counterexample :
    (mergeResults List.dedup bananaResult none).1.verdict = "unsure"
  ∧ combined_score bananaResult none = 9 / 20 := by
  have hs : combined_score bananaResult none = 9 / 20 := by
    simp [combined_score, scoreOf, confOf, bananaResult, verdict_scores]
    norm_num
  refine ⟨?_, hs⟩
  rw [merge_fst_verdict, hs]
  exact (final_verdict_unsure _).2 ⟨by norm_num, by norm_num⟩

/-- C1 (amended): the pipeline performs no schema validation: the object
extracted by `_extract_json` is returned by `BaseAgent.analyze` as-is,
and a missing or out-of-enum `verdict` is silently coerced by
`_merge_results` to the score 0.5, yielding exactly the verdict and
confidence that an `"unsure"` verdict would yield. -/
theorem claim1_amended :
    (∀ (raw : List Char) (j : Json),
      extractJson raw = .ok j → agentAnalyze (.ok raw) = .ok j)
  ∧ (∀ (pySet : List String → List String) (tr : AgentResult)
        (ur : Option AgentResult) (v : String),
      tr.verdict = some v → v ≠ "phishing" → v ≠ "legitimate" → v ≠ "unsure" →
      scoreOf tr = 1 / 2
      ∧ (mergeResults pySet tr ur).1.verdict
          = (mergeResults pySet { tr with verdict := some "unsure" } ur).1.verdict
      ∧ (mergeResults pySet tr ur).1.confidence
          = (mergeResults pySet { tr with verdict := some "unsure" } ur).1.confidence)
  ∧ (∀ (pySet : List String → List String) (tr : AgentResult)
        (ur : Option AgentResult),
      tr.verdict = none →
      scoreOf tr = 1 / 2
      ∧ (mergeResults pySet tr ur).1.verdict
          = (mergeResults pySet { tr with verdict := some "unsure" } ur).1.verdict
      ∧ (mergeResults pySet tr ur).1.confidence
          = (mergeResults pySet { tr with verdict := some "unsure" } ur).1.confidence) := by
  refine ⟨fun raw j h => ?_, fun pySet tr ur v hv h1 h2 h3 => ?_, fun pySet tr ur hv => ?_⟩
  · simp [agentAnalyze, h, Except.mapError]
  · have hs : scoreOf tr = 1 / 2 := by
      simp [scoreOf, hv, verdict_scores, h1, h2, h3]
    have hs' : scoreOf { tr with verdict := some "unsure" } = 1 / 2 := by
      simp [scoreOf, verdict_scores]
    refine ⟨hs, ?_, ?_⟩
    · rw [merge_fst_verdict, merge_fst_verdict]
      congr 1
      cases ur <;> simp [combined_score, hs, hs', confOf]
    · rfl
  · have hs : scoreOf tr = 1 / 2 := by
      simp [scoreOf, hv, verdict_scores]
    have hs' : scoreOf { tr with verdict := some "unsure" } = 1 / 2 := by
      simp [scoreOf, verdict_scores]
    refine ⟨hs, ?_, ?_⟩
    · rw [merge_fst_verdict, merge_fst_verdict]
      congr 1
      cases ur <;> simp [combined_score, hs, hs', confOf]
    · rfl

/-- C1 witness: the amended claim evaluated at concrete inputs — the
object parsed from `"\x7b\x7d"` passes through unvalidated, and
`bananaResult` is scored exactly like an unsure verdict. -/
theorem claim1_witness :
    agentAnalyze (.ok ['{', '}']) = .ok (Json.obj [])
  ∧ (scoreOf bananaResult = 1 / 2
     ∧ (mergeResults List.dedup bananaResult none).1.verdict
         = (mergeResults List.dedup { bananaResult with verdict := some "unsure" } none).1.verdict
     ∧ (mergeResults List.dedup bananaResult none).1.confidence
         = (mergeResults List.dedup { bananaResult with verdict := some "unsure" } none).1.confidence) :=
  ⟨claim1_amended.1 ['{', '}'] (Json.obj []) rfl,
   claim1_amended.2.1 List.dedup bananaResult none "banana" rfl
     (by decide) (by decide) (by decide)⟩

/-- C2 (code bug): merging `textResA` (phishing indicator `"a"`) with a
URL result carrying indicator `"b"` mutates the text result in place —
afterwards its `phishing_indicators` list is `["a", "b"]`, and the
`text_agent_result` embedded "for auditability" holds the mutated record,
not the raw pre-merge one. -/
theorem claim2_bug_eval :
    (mergeResults List.dedup textResA (some urlResB)).2 ≠ textResA
  ∧ (mergeResults List.dedup textResA (some urlResB)).2.phishing_indicators
      = some ["a", "b"]
  ∧ (mergeResults List.dedup textResA (some urlResB)).1.text_agent_result.phishing_indicators
      = some ["a", "b"] := by
  have h2 : (mergeResults List.dedup textResA (some urlResB)).2.phishing_indicators
      = some ["a", "b"] := rfl
  refine ⟨fun h => ?_, h2, rfl⟩
  rw [h] at h2
  simp [textResA] at h2

/-- C6 counterexample: with URLs present, a Backend Unavailable failure of
the URL analyzer alone aborts the whole `analyze_email` call — the caller
receives no unified result, refuting the claim that URL failure does not
abort the analysis. -/
theorem claim6_counterexample :
    analyzeEmail List.dedup (fun _ _ => .ok okTextRes)
      (fun _ => .error .backendUnavailable) "s" "b" (some ["http://x"])
      = .error .backendUnavailable := rfl

/-- C6 (amended): a Text Analyzer failure aborts the whole unified
analysis, and so does a URL Analyzer failure whenever the URL list is
non-empty (no exception handler exists in `analyze_email`); no failure is
replaced by a guessed default — every successful result is the merge of
the analyzers' actual results, with the URL side absent exactly when the
URL list was empty. -/
theorem claim6_amended (pySet : List String → List String)
    (tA : String → String → Except AgentError AgentResult)
    (uA : List String → Except AgentError AgentResult)
    (s b : String) (urls : Option (List String)) :
    (∀ e, tA s b = .error e → analyzeEmail pySet tA uA s b urls = .error e)
  ∧ (∀ e t, (urls.getD []).isEmpty = false → tA s b = .ok t →
      uA (urls.getD []) = .error e →
      analyzeEmail pySet tA uA s b urls = .error e)
  ∧ (∀ u, analyzeEmail pySet tA uA s b urls = .ok u →
      ∃ t, tA s b = .ok t ∧
        (((urls.getD []).isEmpty = true ∧ u = (mergeResults pySet t none).1)
         ∨ (∃ r, uA (urls.getD []) = .ok r
              ∧ u = (mergeResults pySet t (some r)).1))) := by
  refine ⟨fun e he => ?_, fun e t hne ht hu => ?_, fun u hu => ?_⟩
  · unfold analyzeEmail
    rw [he]
  · simp [analyzeEmail, ht, hne, hu, Except.map]
  · cases htA : tA s b with
    | error e => simp [analyzeEmail, htA] at hu
    | ok t =>
      refine ⟨t, rfl, ?_⟩
      cases hemp : (urls.getD []).isEmpty with
      | true =>
        simp [analyzeEmail, htA, hemp] at hu
        exact Or.inl ⟨rfl, hu.symm⟩
      | false =>
        cases huA : uA (urls.getD []) with
        | error e => simp [analyzeEmail, htA, hemp, huA, Except.map] at hu
        | ok r =>
          simp [analyzeEmail, htA, hemp, huA, Except.map] at hu
          exact Or.inr ⟨r, rfl, hu.symm⟩

/-- C6 witness: the amended claim evaluated at concrete outcomes — a text
failure aborts, and a URL Malformed Output failure with a non-empty URL
list aborts. -/
theorem claim6_witness :
    analyzeEmail List.dedup (fun _ _ => .error .backendUnavailable)
      (fun _ => .ok okTextRes) "s" "b" none = .error .backendUnavailable
  ∧ analyzeEmail List.dedup (fun _ _ => .ok okTextRes)
      (fun _ => .error (.malformed .noJsonFound)) "s" "b" (some ["u"])
      = .error (.malformed .noJsonFound) :=
  ⟨(claim6_amended List.dedup (fun _ _ => .error .backendUnavailable)
      (fun _ => .ok okTextRes) "s" "b" none).1 .backendUnavailable rfl,
   (claim6_amended List.dedup (fun _ _ => .ok okTextRes)
      (fun _ => .error (.malformed .noJsonFound)) "s" "b" (some ["u"])).2.1
      (.malformed .noJsonFound) okTextRes rfl rfl rfl⟩

/-- C9 counterexample: `analyze_email` called with an empty URL list
succeeds even though the URL backend unconditionally fails — the URL
analyzer (and hence the backend for the URL view) is never invoked,
refuting the claim that the backend is still called with the
`(no URLs provided)` marker on this path. -/
theorem claim9_counterexample :
    analyzeEmail List.dedup (fun _ _ => .ok okTextRes)
      (fun _ => .error .backendUnavailable) "s" "b" (some [])
      = .ok (mergeResults List.dedup okTextRes none).1 := rfl

/-- C9 (amended): a direct `URLAgent.analyze` call with an empty or absent
URL list does reach the backend with the `(no URLs provided)` marker —
`prepare_input` produces exactly that marker input and the analysis
depends on the backend only through its response to it — but
`analyze_email` with an empty URL list short-circuits (`if urls else
None`) and never invokes the URL analyzer at all. -/
theorem claim9_amended :
    prepare_input (some []) = "URLs to analyze:\n(no URLs provided)"
  ∧ prepare_input none = "URLs to analyze:\n(no URLs provided)"
  ∧ (∀ llm1 llm2 : String → Except Unit (List Char),
      llm1 "URLs to analyze:\n(no URLs provided)"
        = llm2 "URLs to analyze:\n(no URLs provided)" →
      urlAgentAnalyze llm1 (some []) = urlAgentAnalyze llm2 (some []))
  ∧ (∀ (pySet : List String → List String) tA uA uA' (s b : String),
      analyzeEmail pySet tA uA s b (some [])
        = analyzeEmail pySet tA uA' s b (some [])) := by
  refine ⟨by decide, by decide, fun llm1 llm2 h => ?_, fun pySet tA uA uA' s b => ?_⟩
  · unfold urlAgentAnalyze
    have hp : prepare_input (some ([] : List String))
        = "URLs to analyze:\n(no URLs provided)" := by decide
    rw [hp, h]
  · unfold analyzeEmail
    cases htA : tA s b <;> rfl

/-- C9 witness: the amended claim evaluated at concrete backends — two
backends agreeing on the marker input yield the same direct URL analysis,
and `analyze_email` with an empty list ignores the URL analyzer. -/
theorem claim9_witness :
    urlAgentAnalyze (fun _ => .error ()) (some [])
      = urlAgentAnalyze
          (fun m => if m = "URLs to analyze:\n(no URLs provided)"
                    then .error () else .ok []) (some [])
  ∧ analyzeEmail List.dedup (fun _ _ => .ok okTextRes)
      (fun _ => .error .backendUnavailable) "s" "b" (some [])
      = analyzeEmail List.dedup (fun _ _ => .ok okTextRes)
          (fun _ => .ok bananaResult) "s" "b" (some []) :=
  ⟨claim9_amended.2.2.1 (fun _ => .error ())
      (fun m => if m = "URLs to analyze:\n(no URLs provided)"
                then .error () else .ok []) (by simp),
   claim9_amended.2.2.2 List.dedup (fun _ _ => .ok okTextRes)
      (fun _ => .error .backendUnavailable) (fun _ => .ok bananaResult) "s" "b"⟩

/-- C10 counterexample: the order of the deduplicated
`phishing_indicators` list is not determined by the merge inputs — two
enumerations of `list(set(...))`, both valid for CPython's hash-randomized
sets, give byte-different unified results on the same input, refuting
byte-identical output "with no hidden randomness". -/
theorem claim10_counterexample :
    ValidSetEnum (fun l => List.dedup l)
  ∧ ValidSetEnum (fun l => (List.dedup l).reverse)
  ∧ (mergeResults (fun l => List.dedup l) textResAB none).1.phishing_indicators
      = ["a", "b"]
  ∧ (mergeResults (fun l => (List.dedup l).reverse) textResAB none).1.phishing_indicators
      = ["b", "a"]
  ∧ (mergeResults (fun l => List.dedup l) textResAB none).1
      ≠ (mergeResults (fun l => (List.dedup l).reverse) textResAB none).1 := by
  have h3 : (mergeResults (fun l => List.dedup l) textResAB none).1.phishing_indicators
      = ["a", "b"] := rfl
  have h4 : (mergeResults (fun l => (List.dedup l).reverse) textResAB none).1.phishing_indicators
      = ["b", "a"] := rfl
  refine ⟨validSetEnum_dedup, validSetEnum_dedup_reverse, h3, h4, fun h => ?_⟩
  have := congrArg UnifiedResult.phishing_indicators h
  rw [h3, h4] at this
  simp at this

/-! ### The Result Extractor's failure behaviour -/

theorem pyFind_eq_none (c : Char) (l : List Char) : pyFind c l = none ↔ c ∉ l := by
  induction l with
  | nil => simp [pyFind]
  | cons x xs ih =>
    by_cases hx : x = c
    · subst hx; simp [pyFind]
    · simp [pyFind, hx, Option.map_eq_none', ih, Ne.symm hx]

theorem pyRFind_eq_none (c : Char) (l : List Char) : pyRFind c l = none ↔ c ∉ l := by
  simp [pyRFind, Option.map_eq_none', pyFind_eq_none, List.mem_reverse]

/-- C7: on input with no opening brace, no closing brace, or the last
closing brace at or before the first opening brace, `_extract_json`
always fails with the `ValueError No JSON object found` raise (never an
unrelated error); and when the brace-delimited slice exists but is not
valid JSON, the parse failure surfaces as the Malformed Output parse
error. -/
theorem claim7_extractor_errors (raw : List Char) :
    (('{' ∉ raw ∨ '}' ∉ raw ∨
        ∀ s e, pyFind '{' raw = some s → pyRFind '}' raw = some e → e ≤ s) →
      extractJson raw = .error .noJsonFound)
  ∧ (∀ s e, pyFind '{' raw = some s → pyRFind '}' raw = some e → s < e →
      jsonParse ((raw.drop s).take (e + 1 - s)) = none →
      extractJson raw = .error .parseError) := by
  constructor
  · intro h
    cases hF : pyFind '{' raw with
    | none => simp [extractJson, hF]
    | some s =>
      cases hR : pyRFind '}' raw with
      | none => simp [extractJson, hF, hR]
      | some e =>
        have he : e ≤ s := by
          rcases h with h | h | h
          · exact absurd hF (by simp [(pyFind_eq_none _ _).2 h])
          · exact absurd hR (by simp [(pyRFind_eq_none _ _).2 h])
          · exact h s e hF hR
        simp [extractJson, hF, hR, he]
  · intro s e hF hR hlt hparse
    simp [extractJson, hF, hR, not_le.2 hlt, hparse]

/-- C7 witness: the theorem evaluated on `"ab"` (no braces at all) and on
`"\x7ba\x7d"` (braces present but the slice is not valid JSON). -/
theorem claim7_witness :
    extractJson ['a', 'b'] = .error .noJsonFound
  ∧ extractJson ['{', 'a', '}'] = .error .parseError :=
  ⟨(claim7_extractor_errors ['a', 'b']).1 (Or.inl (by decide)),
   (claim7_extractor_errors ['{', 'a', '}']).2 0 2 (by decide) (by decide)
     (by decide) rfl⟩

/-- C10 (amended): the merge is pure and deterministic up to the
runtime's set-enumeration order: for any two valid enumerations of
`list(set(...))` the two unified results agree on every field, and on the
underlying set (and duplicate-freeness) of `phishing_indicators` — only
the enumeration order of that one list can differ; there is no wall-clock
dependency. -/
theorem claim10_amended (f g : List String → List String) (tr : AgentResult)
    (ur : Option AgentResult) (hf : ValidSetEnum f) (hg : ValidSetEnum g) :
    (mergeResults f tr ur).1.task = (mergeResults g tr ur).1.task
  ∧ (mergeResults f tr ur).1.verdict = (mergeResults g tr ur).1.verdict
  ∧ (mergeResults f tr ur).1.confidence = (mergeResults g tr ur).1.confidence
  ∧ (∀ x, x ∈ (mergeResults f tr ur).1.phishing_indicators ↔
        x ∈ (mergeResults g tr ur).1.phishing_indicators)
  ∧ (mergeResults f tr ur).1.phishing_indicators.Nodup
  ∧ (mergeResults g tr ur).1.phishing_indicators.Nodup
  ∧ (mergeResults f tr ur).1.legitimacy_indicators
      = (mergeResults g tr ur).1.legitimacy_indicators
  ∧ (mergeResults f tr ur).1.agents_used = (mergeResults g tr ur).1.agents_used
  ∧ (mergeResults f tr ur).1.text_agent_result
      = (mergeResults g tr ur).1.text_agent_result
  ∧ (mergeResults f tr ur).1.url_agent_result
      = (mergeResults g tr ur).1.url_agent_result
  ∧ (mergeResults f tr ur).1.overall_rationale
      = (mergeResults g tr ur).1.overall_rationale
  ∧ (mergeResults f tr ur).1.safety_notes = (mergeResults g tr ur).1.safety_notes
  ∧ (mergeResults f tr ur).2 = (mergeResults g tr ur).2 := by
  refine ⟨rfl, rfl, rfl, fun x => ?_, ?_, ?_, rfl, rfl, rfl, rfl, rfl, rfl, rfl⟩
  · exact Iff.trans ((hf _).2 x) (Iff.symm ((hg _).2 x))
  · exact (hf _).1
  · exact (hg _).1

/-- C10 witness: the amended claim evaluated with the concrete valid
enumerations `dedup` and reversed `dedup` on a concrete merge input. -/
theorem claim10_witness :
    (mergeResults (fun l => List.dedup l) textResAB none).1.verdict
      = (mergeResults (fun l => (List.dedup l).reverse) textResAB none).1.verdict
  ∧ (mergeResults (fun l => List.dedup l) textResAB none).1.phishing_indicators.Nodup
  ∧ (∀ x, x ∈ (mergeResults (fun l => List.dedup l) textResAB none).1.phishing_indicators ↔
        x ∈ (mergeResults (fun l => (List.dedup l).reverse) textResAB none).1.phishing_indicators) :=
  ⟨(claim10_amended (fun l => List.dedup l) (fun l => (List.dedup l).reverse)
      textResAB none validSetEnum_dedup validSetEnum_dedup_reverse).2.1,
   (claim10_amended (fun l => List.dedup l) (fun l => (List.dedup l).reverse)
      textResAB none validSetEnum_dedup validSetEnum_dedup_reverse).2.2.2.2.1,
   (claim10_amended (fun l => List.dedup l) (fun l => (List.dedup l).reverse)
      textResAB none validSetEnum_dedup validSetEnum_dedup_reverse).2.2.2.1⟩

/-! ### Round-trip of the JSON serializer and parser -/

theorem digitVal_digitChar10 {d : Nat} (h : d < 10) :
    digitVal (digitChar10 d) = d := by
  interval_cases d <;> decide

theorem isDigit_digitChar10 {d : Nat} (h : d < 10) :
    (digitChar10 d).isDigit = true := by
  interval_cases d <;> decide

theorem natChars_digits (n : Nat) : ∀ c ∈ natChars n, c.isDigit = true := by
  intro c hc
  unfold natChars at hc
  split at hc
  · simp at hc
    subst hc
    decide
  · simp only [List.mem_map, List.mem_reverse] at hc
    obtain ⟨d, hd, rfl⟩ := hc
    exact isDigit_digitChar10 (Nat.digits_lt_base (by norm_num) hd)

theorem natChars_ne_nil (n : Nat) : natChars n ≠ [] := by
  unfold natChars
  split
  · simp
  · simp [Nat.digits_ne_nil_iff_ne_zero, *]

theorem foldl_digitChar10 (ds : List Nat) (a : Nat) (h : ∀ d ∈ ds, d < 10) :
    List.foldl (fun a c => 10 * a + digitVal c) a (ds.map digitChar10)
      = List.foldl (fun a d => 10 * a + d) a ds := by
  induction ds generalizing a with
  | nil => rfl
  | cons d ds ih =>
    simp only [List.map_cons, List.foldl_cons]
    rw [digitVal_digitChar10 (h d (by simp))]
    exact ih _ (fun x hx => h x (by simp [hx]))

theorem foldl_reverse_ofDigits (ds : List Nat) :
    List.foldl (fun a d => 10 * a + d) 0 ds.reverse = Nat.ofDigits 10 ds := by
  induction ds with
  | nil => rfl
  | cons d ds ih =>
    rw [List.reverse_cons, List.foldl_append, ih, Nat.ofDigits_cons]
    simp
    ring

theorem natFromDigits_natChars (n : Nat) : natFromDigits (natChars n) = n := by
  unfold natFromDigits natChars
  split
  · subst ‹n = 0›
    decide
  · rw [foldl_digitChar10 _ _
      (fun d hd => Nat.digits_lt_base (by norm_num) (List.mem_reverse.1 hd)),
      foldl_reverse_ofDigits, Nat.ofDigits_digits]

theorem parseStrChars_escape (s rest : List Char) :
    parseStrChars (escapeChars s ++ '"' :: rest) = some (s, rest) := by
  induction s with
  | nil => simp [escapeChars, parseStrChars.eq_def]
  | cons c cs ih =>
    by_cases hc : c = '"' ∨ c = '\\'
    · have hesc : escapeChars (c :: cs) = '\\' :: c :: escapeChars cs := by
        rw [escapeChars.eq_def]
        simp [hc]
      rcases hc with rfl | rfl
      · rw [hesc, List.cons_append, List.cons_append, parseStrChars.eq_def]
        simp [ih]
      · rw [hesc, List.cons_append, List.cons_append, parseStrChars.eq_def]
        simp [ih]
    · push_neg at hc
      have hesc : escapeChars (c :: cs) = c :: escapeChars cs := by
        rw [escapeChars.eq_def]
        simp [hc.1, hc.2]
      rw [hesc, List.cons_append, parseStrChars.eq_def]
      simp [hc.1, hc.2, ih]

theorem jfuel_pos (o : Json) : 1 ≤ jfuel o := by
  cases o <;> simp [jfuel] <;> omega

theorem jfuelA_pos (xs : List Json) : 1 ≤ jfuelA xs := by
  cases xs <;> simp [jfuelA] <;> omega

theorem jfuelO_pos (kvs : List (String × Json)) : 1 ≤ jfuelO kvs := by
  cases kvs <;> simp [jfuelO] <;> omega

theorem jsonStart_ne {c : Char} (h : jsonStart c) :
    c ≠ ']' ∧ c ≠ '}' ∧ c ≠ ',' ∧ c ≠ ':' := by
  rcases h with rfl | rfl | rfl | rfl | rfl | rfl | rfl | hd
  · exact ⟨by decide, by decide, by decide, by decide⟩
  · exact ⟨by decide, by decide, by decide, by decide⟩
  · exact ⟨by decide, by decide, by decide, by decide⟩
  · exact ⟨by decide, by decide, by decide, by decide⟩
  · exact ⟨by decide, by decide, by decide, by decide⟩
  · exact ⟨by decide, by decide, by decide, by decide⟩
  · exact ⟨by decide, by decide, by decide, by decide⟩
  · refine ⟨?_, ?_, ?_, ?_⟩ <;> (rintro rfl; exact absurd hd (by decide))

theorem isDigit_ne {c : Char} (hd : c.isDigit = true) :
    c ≠ 'n' ∧ c ≠ 't' ∧ c ≠ 'f' ∧ c ≠ '"' ∧ c ≠ '[' ∧ c ≠ '{' ∧ c ≠ '-' := by
  refine ⟨?_, ?_, ?_, ?_, ?_, ?_, ?_⟩ <;> (rintro rfl; exact absurd hd (by decide))

theorem dump_head (o : Json) : ∃ c cs, dumpChars o = c :: cs ∧ jsonStart c := by
  cases o with
  | null => exact ⟨'n', ['u', 'l', 'l'], by simp [dumpChars], Or.inl rfl⟩
  | bool b =>
    cases b
    · exact ⟨'f', ['a', 'l', 's', 'e'], by simp [dumpChars], by simp [jsonStart]⟩
    · exact ⟨'t', ['r', 'u', 'e'], by simp [dumpChars], by simp [jsonStart]⟩
  | num n =>
    cases n with
    | ofNat m =>
      rcases hnc : natChars m with _ | ⟨c, cs⟩
      · exact absurd hnc (natChars_ne_nil m)
      · refine ⟨c, cs, by simp [dumpChars, intChars, hnc], Or.inr (Or.inr (Or.inr
          (Or.inr (Or.inr (Or.inr (Or.inr ?_))))))⟩
        exact natChars_digits m c (by rw [hnc]; simp)
    | negSucc m =>
      exact ⟨'-', natChars (m + 1), by simp [dumpChars, intChars], by simp [jsonStart]⟩
  | str s =>
    exact ⟨'"', escapeChars s.data ++ ['"'], by simp [dumpChars], by simp [jsonStart]⟩
  | arr xs =>
    cases xs with
    | nil => exact ⟨'[', [']'], by simp [dumpChars], by simp [jsonStart]⟩
    | cons x xs =>
      exact ⟨'[', dumpChars x ++ dumpArrRest xs, by simp [dumpChars],
        by simp [jsonStart]⟩
  | obj kvs =>
    cases kvs with
    | nil => exact ⟨'{', ['}'], by simp [dumpChars], by simp [jsonStart]⟩
    | cons kv kvs =>
      exact ⟨'{', dumpMember kv ++ dumpObjRest kvs, by simp [dumpChars],
        by simp [jsonStart]⟩

theorem goodRest_dumpArrRest (xs : List Json) (rest : List Char) :
    goodRest (dumpArrRest xs ++ rest) := by
  cases xs <;> simp [dumpArrRest, goodRest]

theorem goodRest_dumpObjRest (kvs : List (String × Json)) (rest : List Char) :
    goodRest (dumpObjRest kvs ++ rest) := by
  cases kvs <;> simp [dumpObjRest, goodRest]

theorem takeWhile_digits : ∀ l rest : List Char, (∀ c ∈ l, c.isDigit = true) →
    goodRest rest →
    (l ++ rest).takeWhile Char.isDigit = l
    ∧ (l ++ rest).dropWhile Char.isDigit = rest := by
  intro l
  induction l with
  | nil =>
    intro rest _ hr
    cases rest with
    | nil => simp
    | cons c t =>
      have hc : c.isDigit = false := hr
      simp [List.takeWhile_cons, List.dropWhile_cons, hc]
  | cons x xs ih =>
    intro rest hl hr
    have hx := hl x (by simp)
    have := ih rest (fun c hc => hl c (by simp [hc])) hr
    simp [List.takeWhile_cons, List.dropWhile_cons, hx, this.1, this.2]

theorem parse_dump_round : ∀ fuel : Nat,
    (∀ (o : Json) (rest : List Char), jfuel o ≤ fuel → goodRest rest →
      parseVal fuel (dumpChars o ++ rest) = some (o, rest))
  ∧ (∀ (xs : List Json) (rest : List Char), jfuelA xs ≤ fuel → goodRest rest →
      parseArrRest fuel (dumpArrRest xs ++ rest) = some (xs, rest))
  ∧ (∀ (kv : String × Json) (rest : List Char), 1 + jfuel kv.2 ≤ fuel →
      goodRest rest →
      parseMember fuel (dumpMember kv ++ rest) = some (kv, rest))
  ∧ (∀ (kvs : List (String × Json)) (rest : List Char), jfuelO kvs ≤ fuel →
      goodRest rest →
      parseObjRest fuel (dumpObjRest kvs ++ rest) = some (kvs, rest)) := by
  intro fuel
  induction fuel with
  | zero =>
    refine ⟨fun o rest hf _ => absurd hf (by have := jfuel_pos o; omega),
            fun xs rest hf _ => absurd hf (by have := jfuelA_pos xs; omega),
            fun kv rest hf _ => absurd hf (by omega),
            fun kvs rest hf _ => absurd hf (by have := jfuelO_pos kvs; omega)⟩
  | succ fuel ih =>
    obtain ⟨ihV, ihA, ihM, ihO⟩ := ih
    refine ⟨?_, ?_, ?_, ?_⟩
    · intro o rest hf hr
      cases o with
      | null => simp [dumpChars, parseVal]
      | bool b => cases b <;> simp [dumpChars, parseVal]
      | num n =>
        cases n with
        | ofNat m =>
          have hdig := natChars_digits m
          have htw := takeWhile_digits (natChars m) rest hdig hr
          rcases hnc : natChars m with _ | ⟨c, cs⟩
          · exact absurd hnc (natChars_ne_nil m)
          · have hc : c.isDigit = true := hdig c (by rw [hnc]; simp)
            obtain ⟨hn1, hn2, hn3, hn4, hn5, hn6, hn7⟩ := isDigit_ne hc
            rw [hnc] at htw
            have hnf : natFromDigits (c :: cs) = m := by
              rw [← hnc, natFromDigits_natChars]
            simp only [dumpChars, intChars]
            rw [hnc]
            simp only [List.cons_append] at htw ⊢
            simp [parseVal, hn1, hn2, hn3, hn4, hn5, hn6, hn7, hc, htw.1, htw.2, hnf]
        | negSucc m =>
          have hdig := natChars_digits (m + 1)
          have htw := takeWhile_digits (natChars (m + 1)) rest hdig hr
          rcases hnc : natChars (m + 1) with _ | ⟨c, cs⟩
          · exact absurd hnc (natChars_ne_nil (m + 1))
          · have hc : c.isDigit = true := hdig c (by rw [hnc]; simp)
            rw [hnc] at htw
            have hnf : natFromDigits (c :: cs) = m + 1 := by
              rw [← hnc, natFromDigits_natChars]
            simp only [dumpChars, intChars]
            rw [hnc]
            simp only [List.cons_append] at htw ⊢
            simp [parseVal, hc, htw.1, htw.2, hnf, Int.negSucc_eq]
      | str s =>
        simp only [dumpChars, List.cons_append, List.append_assoc,
          List.singleton_append]
        simp [parseVal, parseStrChars_escape]
      | arr xs =>
        cases xs with
        | nil => simp [dumpChars, parseVal]
        | cons x xs =>
          simp only [jfuel, jfuelA] at hf
          obtain ⟨c, cs, hx, hstart⟩ := dump_head x
          obtain ⟨hne1, hne2, hne3, hne4⟩ := jsonStart_ne hstart
          have h1 : parseVal fuel (dumpChars x ++ (dumpArrRest xs ++ rest))
              = some (x, dumpArrRest xs ++ rest) :=
            ihV x _ (by omega) (goodRest_dumpArrRest xs rest)
          have h2 : parseArrRest fuel (dumpArrRest xs ++ rest) = some (xs, rest) :=
            ihA xs rest (by omega) hr
          rw [hx] at h1
          simp only [dumpChars, List.cons_append, List.append_assoc]
          rw [hx]
          simp only [List.cons_append] at h1 ⊢
          simp [parseVal, hne1, h1, h2]
      | obj kvs =>
        cases kvs with
        | nil => simp [dumpChars, parseVal]
        | cons kv kvs =>
          simp only [jfuel, jfuelO] at hf
          have h1 : parseMember fuel (dumpMember kv ++ (dumpObjRest kvs ++ rest))
              = some (kv, dumpObjRest kvs ++ rest) :=
            ihM kv _ (by omega) (goodRest_dumpObjRest kvs rest)
          have h2 : parseObjRest fuel (dumpObjRest kvs ++ rest) = some (kvs, rest) :=
            ihO kvs rest (by omega) hr
          obtain ⟨k, v⟩ := kv
          have hdm : dumpMember (k, v) = '"' :: (escapeChars k.data ++ ['"', ':']
              ++ dumpChars v) := by simp [dumpMember]
          rw [hdm] at h1
          simp only [dumpChars, List.cons_append, List.append_assoc]
          rw [hdm]
          simp only [List.cons_append, List.append_assoc, List.nil_append] at h1 ⊢
          simp [parseVal, h1, h2]
    · intro xs rest hf hr
      cases xs with
      | nil => simp [dumpArrRest, parseArrRest]
      | cons x xs =>
        simp only [jfuelA] at hf
        have h1 : parseVal fuel (dumpChars x ++ (dumpArrRest xs ++ rest))
            = some (x, dumpArrRest xs ++ rest) :=
          ihV x _ (by omega) (goodRest_dumpArrRest xs rest)
        have h2 : parseArrRest fuel (dumpArrRest xs ++ rest) = some (xs, rest) :=
          ihA xs rest (by omega) hr
        simp only [dumpArrRest, List.cons_append, List.append_assoc]
        simp [parseArrRest, h1, h2]
    · intro kv rest hf hr
      obtain ⟨k, v⟩ := kv
      have h1 : parseVal fuel (dumpChars v ++ rest) = some (v, rest) :=
        ihV v rest (by simp at hf; omega) hr
      simp only [dumpMember, List.cons_append, List.append_assoc,
        List.singleton_append]
      simp [parseMember, parseStrChars_escape, h1]
    · intro kvs rest hf hr
      cases kvs with
      | nil => simp [dumpObjRest, parseObjRest]
      | cons kv kvs =>
        simp only [jfuelO] at hf
        have h1 : parseMember fuel (dumpMember kv ++ (dumpObjRest kvs ++ rest))
            = some (kv, dumpObjRest kvs ++ rest) :=
          ihM kv _ (by omega) (goodRest_dumpObjRest kvs rest)
        have h2 : parseObjRest fuel (dumpObjRest kvs ++ rest) = some (kvs, rest) :=
          ihO kvs rest (by omega) hr
        simp only [dumpObjRest, List.cons_append, List.append_assoc]
        simp [parseObjRest, h1, h2]

theorem intChars_ne_nil (n : Int) : intChars n ≠ [] := by
  cases n with
  | ofNat m => simpa [intChars] using natChars_ne_nil m
  | negSucc m => simp [intChars]

mutual

theorem jfuel_le_dump (o : Json) : jfuel o ≤ 2 * (dumpChars o).length := by
  cases o with
  | null => simp [jfuel, dumpChars]
  | bool b => cases b <;> simp [jfuel, dumpChars]
  | num n =>
    have h1 : 0 < (intChars n).length := List.length_pos.2 (intChars_ne_nil n)
    simp [jfuel, dumpChars]
    omega
  | str s => simp [jfuel, dumpChars]; omega
  | arr xs =>
    cases xs with
    | nil => simp [jfuel, jfuelA, dumpChars]
    | cons x xs =>
      have h1 := jfuel_le_dump x
      have h2 := jfuelA_le_dump xs
      simp [jfuel, jfuelA, dumpChars]
      omega
  | obj kvs =>
    cases kvs with
    | nil => simp [jfuel, jfuelO, dumpChars]
    | cons kv kvs =>
      have h1 := jfuel_le_dump kv.2
      have h2 := jfuelO_le_dump kvs
      have h3 : (dumpChars kv.2).length + 3 ≤ (dumpMember kv).length := by
        obtain ⟨k, v⟩ := kv
        simp [dumpMember]
      simp [jfuel, jfuelO, dumpChars]
      omega

theorem jfuelA_le_dump (xs : List Json) : jfuelA xs ≤ 2 * (dumpArrRest xs).length := by
  cases xs with
  | nil => simp [jfuelA, dumpArrRest]
  | cons x xs =>
    have h1 := jfuel_le_dump x
    have h2 := jfuelA_le_dump xs
    simp [jfuelA, dumpArrRest]
    omega

theorem jfuelO_le_dump (kvs : List (String × Json)) :
    jfuelO kvs ≤ 2 * (dumpObjRest kvs).length := by
  cases kvs with
  | nil => simp [jfuelO, dumpObjRest]
  | cons kv kvs =>
    have h1 := jfuel_le_dump kv.2
    have h2 := jfuelO_le_dump kvs
    have h3 : (dumpChars kv.2).length + 3 ≤ (dumpMember kv).length := by
      obtain ⟨k, v⟩ := kv
      simp [dumpMember]
    simp [jfuelO, dumpObjRest]
    omega

end

theorem jsonParse_dump (o : Json) : jsonParse (dumpChars o) = some o := by
  have h := (parse_dump_round (2 * (dumpChars o).length + 1)).1 o []
    (by have := jfuel_le_dump o; omega) trivial
  rw [List.append_nil] at h
  simp [jsonParse, h]

theorem pyFind_append_of_not_mem (c : Char) (pre l : List Char) (h : c ∉ pre) :
    pyFind c (pre ++ l) = (pyFind c l).map (· + pre.length) := by
  induction pre with
  | nil => cases hF : pyFind c l <;> simp [hF]
  | cons x xs ih =>
    have hx : x ≠ c := fun e => h (by simp [e])
    rw [List.cons_append]
    have ih' := ih (fun hc => h (by simp [hc]))
    simp only [pyFind, hx, if_false, ih']
    cases hF : pyFind c l <;> simp [hF] <;> omega

theorem dump_obj_head (kvs : List (String × Json)) :
    ∃ t, dumpChars (Json.obj kvs) = '{' :: t := by
  cases kvs with
  | nil => exact ⟨['}'], by simp [dumpChars]⟩
  | cons kv kvs => exact ⟨dumpMember kv ++ dumpObjRest kvs, by simp [dumpChars]⟩

theorem dumpObjRest_last (kvs : List (String × Json)) :
    ∃ t, dumpObjRest kvs = t ++ ['}'] := by
  induction kvs with
  | nil => exact ⟨[], by simp [dumpObjRest]⟩
  | cons kv kvs ih =>
    obtain ⟨t, ht⟩ := ih
    exact ⟨',' :: (dumpMember kv ++ t), by simp [dumpObjRest, ht]⟩

theorem dump_obj_last (kvs : List (String × Json)) :
    ∃ t, dumpChars (Json.obj kvs) = t ++ ['}'] := by
  cases kvs with
  | nil => exact ⟨['{'], by simp [dumpChars]⟩
  | cons kv kvs =>
    obtain ⟨t, ht⟩ := dumpObjRest_last kvs
    exact ⟨'{' :: (dumpMember kv ++ t), by simp [dumpChars, ht]⟩

theorem dump_obj_length (kvs : List (String × Json)) :
    2 ≤ (dumpChars (Json.obj kvs)).length := by
  cases kvs with
  | nil => simp [dumpChars]
  | cons kv kvs =>
    obtain ⟨t, ht⟩ := dumpObjRest_last kvs
    simp [dumpChars, ht]
    omega

/-- C8: round-trip — serializing any JSON object and embedding the
serialization between an arbitrary brace-free prefix and an arbitrary
brace-free suffix, `_extract_json` recovers an object equal to the
original: the first opening brace and last closing brace delimit exactly
the serialization, and parsing it inverts serialization. -/
theorem claim8_roundtrip (kvs : List (String × Json)) (pre suf : List Char)
    (hpre : ∀ c ∈ pre, c ≠ '{' ∧ c ≠ '}')
    (hsuf : ∀ c ∈ suf, c ≠ '{' ∧ c ≠ '}') :
    extractJson (pre ++ dumpChars (Json.obj kvs) ++ suf) = .ok (Json.obj kvs) := by
  obtain ⟨t1, ht1⟩ := dump_obj_head kvs
  obtain ⟨t2, ht2⟩ := dump_obj_last kvs
  have hlen := dump_obj_length kvs
  have hjp := jsonParse_dump (Json.obj kvs)
  set d := dumpChars (Json.obj kvs) with hd
  rw [List.append_assoc]
  have hF : pyFind '{' (pre ++ (d ++ suf)) = some pre.length := by
    rw [pyFind_append_of_not_mem '{' pre _ (fun hc => (hpre _ hc).1 rfl)]
    rw [ht1]
    simp [pyFind]
  have hR : pyRFind '}' (pre ++ (d ++ suf)) = some (pre.length + d.length - 1) := by
    unfold pyRFind
    have hrev : (pre ++ (d ++ suf)).reverse
        = suf.reverse ++ (d.reverse ++ pre.reverse) := by
      simp [List.reverse_append]
    rw [hrev, pyFind_append_of_not_mem '}' suf.reverse _
      (fun hc => (hsuf _ (List.mem_reverse.1 hc)).2 rfl)]
    have hdrev : d.reverse = '}' :: t2.reverse := by rw [ht2]; simp
    rw [hdrev]
    simp only [pyFind, if_pos rfl, List.cons_append]
    simp only [Option.map_some', Option.map_map]
    have hlens : (pre ++ (d ++ suf)).length
        = pre.length + (d.length + suf.length) := by simp
    rw [hlens]
    simp
    omega
  have hne : ¬ (pre.length + d.length - 1 ≤ pre.length) := by omega
  have hslice : (d ++ suf).take (pre.length + d.length - 1 + 1 - pre.length) = d := by
    have he : pre.length + d.length - 1 + 1 - pre.length = d.length := by omega
    rw [he, List.take_left]
  simp [extractJson, hF, hR, hne, hslice, hjp]

/-- C8 witness: the round-trip evaluated at the concrete object
`\x7b"a": 1\x7d` embedded between the brace-free prefix `"x"` and suffix
`"y"`. -/
theorem claim8_witness :
    extractJson (['x'] ++ dumpChars (Json.obj [("a", Json.num 1)]) ++ ['y'])
      = .ok (Json.obj [("a", Json.num 1)]) :=
  claim8_roundtrip [("a", Json.num 1)] ['x'] ['y'] (by decide) (by decide)
